import Mathlib

/-!
Verification development for the WiFi-Signal Human-Activity-Recognition model
(`src/bidirectional_mamba.py`).  Tensors are shallowly embedded as nested
lists of rationals; the external collaborators (the Mamba mixer, LayerNorm /
RMSNorm, the fused add-norm kernels, timm's training-mode DropPath and
torch's training-mode Dropout) are abstract function fields, while every
in-repository computation (convolution arithmetic, block wiring, the
forward_features pipeline, the drop-path schedule, constructor name
resolution) is translated directly from the source.
-/

namespace BiMamba

/-- A feature vector (last tensor axis). -/
abbrev Vec := List ℚ

/-- A rank-2 tensor: (tokens, dim) or (batch, dim). -/
abbrev T2 := List Vec

/-- A rank-3 tensor: (batch, tokens, dim). -/
abbrev T3 := List T2

/-- Python exceptions that the module can raise. -/
inductive PyErr where
  | nameError (n : String)
  | attributeError (n : String)
  | notImplementedError
deriving DecidableEq, Repr

def addVec : Vec → Vec → Vec := List.zipWith (· + ·)

def addT2 : T2 → T2 → T2 := List.zipWith addVec

def addT3 : T3 → T3 → T3 := List.zipWith addT2

/-- Model of `x.flip([1])`: reverse the token axis of a (batch, tokens, dim) tensor. -/
def flipT (x : T3) : T3 := x.map List.reverse

/-- Shape predicate for rank-2 tensors. -/
def shape2 (x : T2) (a b : ℕ) : Prop := x.length = a ∧ ∀ v ∈ x, v.length = b

/-- Shape predicate for rank-3 tensors. -/
def shape3 (x : T3) (a b c : ℕ) : Prop := x.length = a ∧ ∀ s ∈ x, shape2 s b c

instance (x : T2) (a b : ℕ) : Decidable (shape2 x a b) := by
  unfold shape2; infer_instance

instance (x : T3) (a b c : ℕ) : Decidable (shape3 x a b c) := by
  unfold shape3; infer_instance

/-! ## 1-D convolution (`nn.Conv1d`, stride 1, dilation 1)

`conv1d groups padding k weight bias x` computes the cross-correlation used
by `nn.Conv1d(C_in, C_out, k, groups=groups, padding=padding)`: output
channel `j` belongs to group `j / (C_out/groups)` and reads the
`C_in/groups` input channels of that group, each zero-padded by `padding`
on both sides; the output time length is `T + 2*padding - k + 1`. -/

def pad1 (p : ℕ) (v : Vec) : Vec :=
  List.replicate p 0 ++ v ++ List.replicate p 0

def dot (a b : Vec) : ℚ := (List.zipWith (· * ·) a b).sum

def conv1d (groups padding k : ℕ) (weight : List T2) (bias : Vec) (x : T2) : T2 :=
  let cIn := x.length
  let cOut := weight.length
  let inPerG := cIn / groups
  let outPerG := cOut / groups
  let T := (x.headD []).length
  let Tout := T + 2 * padding + 1 - k
  (List.range cOut).map (fun j =>
    let gIdx := j / outPerG
    let xs := ((x.drop (gIdx * inPerG)).take inPerG).map (pad1 padding)
    let wj := weight.getD j []
    (List.range Tout).map (fun t =>
      bias.getD j 0 +
        ((List.range inPerG).map (fun c =>
          dot (wj.getD c []) (((xs.getD c []).drop t).take k))).sum))

/-- State of `DepthwiseSeparableConv1D` (source lines 24-35): a depthwise
`nn.Conv1d(in_channels, in_channels*kernel_size, kernel_size, groups=groups,
padding=kernel_size//2)` followed by a pointwise
`nn.Conv1d(in_channels*kernel_size, out_channels, kernel_size=1)`. -/
structure DepthwiseSeparableConv1D where
  in_channels : ℕ
  out_channels : ℕ
  groups : ℕ
  kernel_size : ℕ
  dw_weight : List T2
  dw_bias : Vec
  pw_weight : List T2
  pw_bias : Vec

/-- The depthwise stage `self.depthwise(x)`. -/
def DepthwiseSeparableConv1D.depthwise (m : DepthwiseSeparableConv1D) (x : T2) : T2 :=
  conv1d m.groups (m.kernel_size / 2) m.kernel_size m.dw_weight m.dw_bias x

/-- The pointwise stage `self.pointwise(x)`. -/
def DepthwiseSeparableConv1D.pointwise (m : DepthwiseSeparableConv1D) (x : T2) : T2 :=
  conv1d 1 0 1 m.pw_weight m.pw_bias x

/-- The map `DepthwiseSeparableConv1D.forward` applied to one batch element. -/
def DepthwiseSeparableConv1D.fwd (m : DepthwiseSeparableConv1D) (x : T2) : T2 :=
  m.pointwise (m.depthwise x)

/-- Batched `DepthwiseSeparableConv1D.forward`. -/
def DepthwiseSeparableConv1D.forward (m : DepthwiseSeparableConv1D) (x : T3) : T3 :=
  x.map m.fwd

/-! ### Shape facts about `conv1d` -/

theorem conv1d_shape (groups padding k : ℕ) (weight : List T2) (bias : Vec)
    (x : T2) (T : ℕ) (hT : (x.headD []).length = T) :
    shape2 (conv1d groups padding k weight bias x) weight.length
      (T + 2 * padding + 1 - k) := by
  unfold conv1d
  constructor
  · simp
  · intro v hv
    simp only [List.mem_map, List.mem_range] at hv
    obtain ⟨j, -, rfl⟩ := hv
    rw [List.headD_eq_head?] at hT
    simp [hT]

theorem headD_length_of_shape2 {s : T2} {c T : ℕ} (h : shape2 s c T) (hc : 1 ≤ c) :
    (s.headD []).length = T := by
  obtain ⟨hl, hmem⟩ := h
  cases s with
  | nil => simp at hl; omega
  | cons v t => exact hmem v (by simp)

/-- C3: for every input of shape (batch, in_channels, time) and odd
kernel_size, the depthwise-separable convolution (groups = in_channels,
padding = kernel_size//2) preserves the time dimension, the depthwise stage
expands the channels to in_channels*kernel_size, and the pointwise stage
mixes them down to out_channels, giving output shape
(batch, out_channels, time). -/
theorem C3_depthwise_separable_conv_contract (m : DepthwiseSeparableConv1D)
    (B T : ℕ) (x : T3)
    (_hg : m.groups = m.in_channels)
    (hin : 1 ≤ m.in_channels)
    (hodd : m.kernel_size % 2 = 1)
    (hx : shape3 x B m.in_channels T)
    (hT : 1 ≤ T)
    (hdw : m.dw_weight.length = m.in_channels * m.kernel_size)
    (hpw : m.pw_weight.length = m.out_channels) :
    shape3 (m.forward x) B m.out_channels T ∧
    ∀ s ∈ x, shape2 (m.depthwise s) (m.in_channels * m.kernel_size) T := by
  have hk1 : 1 ≤ m.kernel_size := by omega
  have hdepth : ∀ s ∈ x, shape2 (m.depthwise s) (m.in_channels * m.kernel_size) T := by
    intro s hs
    have hsx : shape2 s m.in_channels T := hx.2 s hs
    have hd := conv1d_shape m.groups (m.kernel_size / 2) m.kernel_size
      m.dw_weight m.dw_bias s T (headD_length_of_shape2 hsx hin)
    have harith : T + 2 * (m.kernel_size / 2) + 1 - m.kernel_size = T := by omega
    rw [harith, hdw] at hd
    exact hd
  refine ⟨⟨by simpa [DepthwiseSeparableConv1D.forward] using hx.1, ?_⟩, hdepth⟩
  intro s' hs'
  simp only [DepthwiseSeparableConv1D.forward, List.mem_map] at hs'
  obtain ⟨s, hs, rfl⟩ := hs'
  have hd := hdepth s hs
  have hpos : 1 ≤ m.in_channels * m.kernel_size := Nat.mul_pos hin hk1
  have hp := conv1d_shape 1 0 1 m.pw_weight m.pw_bias (m.depthwise s) T
    (headD_length_of_shape2 hd hpos)
  have harith : T + 2 * 0 + 1 - 1 = T := by omega
  rw [harith, hpw] at hp
  exact hp

def convEx : DepthwiseSeparableConv1D :=
  { in_channels := 1, out_channels := 1, groups := 1, kernel_size := 1,
    dw_weight := [[[2]]], dw_bias := [0], pw_weight := [[[3]]], pw_bias := [1] }

/-- Witness for C3 at a concrete 1-channel, length-3 input. -/
theorem C3_depthwise_separable_conv_contract_witness :
    shape3 (convEx.forward [[[1, 2, 3]]]) 1 1 3 ∧
    ∀ s ∈ ([[[1, 2, 3]]] : T3), shape2 (convEx.depthwise s) 1 3 :=
  C3_depthwise_separable_conv_contract convEx 1 3 [[[1, 2, 3]]]
    rfl (by decide) (by decide) (by decide) (by decide) (by decide) (by decide)

/-! ## Drop-path schedule (source lines 204-227)

`dpr = [x.item() for x in torch.linspace(0, drop_path_rate, depth)]`,
`inter_dpr = [0.0] + dpr`, and block `i` receives `inter_dpr[i]` for
`i in range(depth)`. -/

/-- Model of `torch.linspace(a, b, n)`: `n` evenly spaced points from `a` to `b`
inclusive (for `n = 1` just `[a]`). -/
def linspace (a b : ℚ) (n : ℕ) : List ℚ :=
  match n with
  | 0 => []
  | 1 => [a]
  | _ => (List.range n).map (fun i : ℕ => a + (b - a) * (i : ℚ) / ((n : ℚ) - 1))

def dpr (drop_path_rate : ℚ) (depth : ℕ) : List ℚ := linspace 0 drop_path_rate depth

def inter_dpr (drop_path_rate : ℚ) (depth : ℕ) : List ℚ := 0 :: dpr drop_path_rate depth

/-- The drop-path probability given to each of the `depth` blocks:
`inter_dpr[i]` for `i in range(depth)`. -/
def blockDropPaths (drop_path_rate : ℚ) (depth : ℕ) : List ℚ :=
  (List.range depth).map (fun i => (inter_dpr drop_path_rate depth).getD i 0)

theorem blockDropPaths_getD (r : ℚ) (d i : ℕ) (hi : i < d) :
    (blockDropPaths r d).getD i 0 =
      if i = 0 then 0 else r * ((i - 1 : ℕ) : ℚ) / ((d : ℚ) - 1) := by
  have hlen : (blockDropPaths r d).length = d := by simp [blockDropPaths]
  rw [List.getD_eq_getElem _ _ (by omega)]
  simp only [blockDropPaths, List.getElem_map, List.getElem_range]
  cases i with
  | zero => simp [inter_dpr]
  | succ j =>
    simp only [inter_dpr, List.getD_cons_succ, Nat.succ_ne_zero, if_false]
    obtain ⟨k, rfl⟩ : ∃ k, d = k + 2 := ⟨d - 2, by omega⟩
    have hj : j < k + 2 := by omega
    have hmap : dpr r (k + 2) =
        (List.range (k + 2)).map
          (fun i : ℕ => 0 + (r - 0) * (i : ℚ) / (((k + 2 : ℕ) : ℚ) - 1)) := rfl
    rw [hmap, List.getD_eq_getElem _ _ (by simpa using hj)]
    simp only [List.getElem_map, List.getElem_range]
    have h1 : ((j + 1 - 1 : ℕ) : ℚ) = (j : ℚ) := by norm_num
    rw [h1]
    push_cast
    ring

/-- C7 counterexample: at depth 2 with drop_path_rate 1/10 the per-block
probabilities are [0, 0], so the deepest block receives 0, not the
configured maximum 1/10 as the claim states. -/
theorem C7_counterexample :
    (blockDropPaths (1/10) 2).getD 1 0 = 0 ∧
    (blockDropPaths (1/10) 2).getD 1 0 ≠ 1/10 := by
  have h := blockDropPaths_getD (1/10) 2 1 (by omega)
  rw [if_neg (by omega)] at h
  have h0 : (blockDropPaths (1/10) 2).getD 1 0 = 0 := by rw [h]; norm_num
  exact ⟨h0, by rw [h0]; norm_num⟩

/-- C7 (amended): the per-block drop-path probabilities form a
non-decreasing sequence of length depth starting at exactly 0; block `i`
(for `1 ≤ i < depth`) receives `rate * (i-1)/(depth-1)`, so the deepest
block receives `rate * (depth-2)/(depth-1)`, strictly below the configured
maximum whenever `depth ≥ 2` and `rate > 0` (the last linspace value,
`rate` itself, is discarded by the `[0.0] +` prepend). -/
theorem C7_drop_path_schedule (r : ℚ) (d : ℕ) (hr : 0 ≤ r) :
    (blockDropPaths r d).length = d ∧
    (1 ≤ d → (blockDropPaths r d).getD 0 0 = 0) ∧
    List.Sorted (· ≤ ·) (blockDropPaths r d) ∧
    (∀ i, 1 ≤ i → i < d →
      (blockDropPaths r d).getD i 0 = r * ((i - 1 : ℕ) : ℚ) / ((d : ℚ) - 1)) ∧
    (2 ≤ d → (blockDropPaths r d).getD (d - 1) 0 = r * ((d - 2 : ℕ) : ℚ) / ((d : ℚ) - 1)) := by
  have hlen : (blockDropPaths r d).length = d := by simp [blockDropPaths]
  refine ⟨hlen, ?_, ?_, ?_, ?_⟩
  · intro h1
    rw [blockDropPaths_getD r d 0 (by omega)]
    simp
  · rw [List.Sorted, List.pairwise_iff_getElem]
    intro i j hi hj hij
    have hi' : i < d := by omega
    have hj' : j < d := by omega
    rw [← List.getD_eq_getElem _ 0 hi, ← List.getD_eq_getElem _ 0 hj,
      blockDropPaths_getD r d i hi', blockDropPaths_getD r d j hj']
    have hj1 : j ≠ 0 := by omega
    have hd2 : 2 ≤ d := by omega
    have hdq : (1 : ℚ) ≤ (d : ℚ) - 1 := by
      have h2 : (2 : ℚ) ≤ (d : ℚ) := by exact_mod_cast hd2
      linarith
    rw [if_neg hj1]
    rcases Nat.eq_zero_or_pos i with h0 | h1
    · rw [if_pos h0]
      exact div_nonneg (mul_nonneg hr (Nat.cast_nonneg _)) (by linarith)
    · rw [if_neg (by omega)]
      have hcast : ((i - 1 : ℕ) : ℚ) ≤ ((j - 1 : ℕ) : ℚ) := by
        exact_mod_cast Nat.sub_le_sub_right (Nat.le_of_lt hij) 1
      have hpos : (0 : ℚ) < (d : ℚ) - 1 := by linarith
      exact (div_le_div_iff_of_pos_right hpos).mpr (mul_le_mul_of_nonneg_left hcast hr)
  · intro i h1 h2
    rw [blockDropPaths_getD r d i h2, if_neg (by omega)]
  · intro h2
    rw [blockDropPaths_getD r d (d - 1) (by omega), if_neg (by omega)]
    have : d - 1 - 1 = d - 2 := by omega
    rw [this]

/-- Witness for C7 at rate 1/10, depth 4: the deepest block receives
(1/10)*2/3, not 1/10. -/
theorem C7_drop_path_schedule_witness :
    (0:ℚ) ≤ 1/10 ∧
    (blockDropPaths (1/10) 4).getD (4 - 1) 0 = (1/10) * ((4 - 2 : ℕ) : ℚ) / ((4 : ℚ) - 1) :=
  ⟨by norm_num, (C7_drop_path_schedule (1/10) 4 (by norm_num)).2.2.2.2 (by norm_num)⟩

/-! ## Mixer-Block (`Block`, source lines 37-95)

The sequence-mixing operator (`Mamba`), the normalization layer
(`nn.LayerNorm` / `RMSNorm`) and the fused add-norm kernels are external
collaborators and appear as abstract function fields; the `.to(dtype)` and
fp32 casts are the identity on exact rationals.  Training-mode
`DropPath` (timm) is an external collaborator `dpT`; in evaluation mode it
is the identity and samples nothing. -/

structure BlockState where
  mixer : T3 → T3
  norm : T3 → T3
  fusedNormPre : T3 → Option T3 → T3 × T3
  drop_path_p : ℚ
  residual_in_fp32 : Bool
  fused_add_norm : Bool

/-- Shared signature of the training-mode DropPath collaborator: rate,
random stream, stream position, input. -/
abbrev DropPathFn := ℚ → (ℕ → ℚ) → ℕ → T3 → T3 × ℕ

def applyDropPath (dpT : DropPathFn) (training : Bool) (p : ℚ)
    (g : ℕ → ℚ) (i : ℕ) (x : T3) : T3 × ℕ :=
  if training then dpT p g i x else (x, i)

/-- Model of `Block.forward` (source lines 58-95): returns the (hidden_states,
residual) pair together with the advanced random-stream position. -/
def blockForward (dpT : DropPathFn) (training : Bool) (b : BlockState)
    (g : ℕ → ℚ) (i : ℕ) (h : T3) (r : Option T3) : (T3 × T3) × ℕ :=
  if b.fused_add_norm = false then
    match r with
    | none =>
      let residual := h
      let h1 := b.norm residual
      ((b.mixer h1, residual), i)
    | some r0 =>
      let (mx, i1) := applyDropPath dpT training b.drop_path_p g i (b.mixer h)
      let residual := addT3 r0 mx
      let h1 := b.norm residual
      ((b.mixer h1, residual), i1)
  else
    match r with
    | none =>
      let p := b.fusedNormPre h none
      ((b.mixer p.1, p.2), i)
    | some r0 =>
      let (hd, i1) := applyDropPath dpT training b.drop_path_p g i h
      let p := b.fusedNormPre hd (some r0)
      ((b.mixer p.1, p.2), i1)

/-! ## Bidirectional_Mamba model state

The attributes that `__init__` (source lines 142-239) assigns on `self` and
that `forward_features` / `forward` read.  Note that `__init__` assigns
`if_rope_residual` while `forward_features` reads `if_rope_residuals`, and
never assigns any `rope` attribute at all. -/

structure Model where
  training : Bool
  residual_in_fp32 : Bool
  fused_add_norm : Bool
  if_bidirectional : Bool
  final_pool_type : String
  if_abs_pos_embed : Bool
  if_rope_residual : Bool
  flip_img_sequences_ratio : ℚ
  if_rope : Bool
  if_cls_token : Bool
  use_double_cls_token : Bool
  use_middle_cls_token : Bool
  cls_token_head : Vec
  cls_token_tail : Vec
  cls_token : Vec
  pos_embed : T2
  drop_path_rate : ℚ
  layers : List BlockState
  norm_f : T3 → T3
  fusedNormFinal : T3 → Option T3 → T3
  posDropTrain : (ℕ → ℚ) → ℕ → T3 → T3 × ℕ
  dropPathTrain : DropPathFn
  head : Vec → Vec

/-- Recorded classification-token position(s): none, a single index, or the
head/tail pair of double mode. -/
inductive TokenPos where
  | noTok
  | single (p : ℕ)
  | pair (p q : ℕ)
deriving DecidableEq, Repr

/-- Model of `random.randint(0, M)` (inclusive) derived from one stream draw. -/
def randint (q : ℚ) (M : ℕ) : ℕ := (Int.toNat ⌊q * (M + 1)⌋) % (M + 1)

/-- Classification-token insertion (source lines 244-269). -/
def clsInsert (m : Model) (x : T3) (g : ℕ → ℚ) (i : ℕ)
    (if_random_cls_token_position : Bool) : T3 × TokenPos × ℕ :=
  let M := (x.headD []).length
  if m.if_cls_token then
    if m.use_double_cls_token then
      (x.map (fun s => m.cls_token_head :: s ++ [m.cls_token_tail]), .pair 0 (M + 1), i)
    else if m.use_middle_cls_token then
      let p := M / 2
      (x.map (fun s => s.take p ++ m.cls_token :: s.drop p), .single p, i)
    else if if_random_cls_token_position then
      let p := randint (g i) M
      (x.map (fun s => s.take p ++ m.cls_token :: s.drop p), .single p, i + 1)
    else
      (x.map (fun s => m.cls_token :: s), .single 0, i)
  else (x, .noTok, i)

/-- Absolute position embedding plus embedding dropout (source lines
271-273); `nn.Dropout` is the identity in evaluation mode. -/
def posStage (m : Model) (x : T3) (g : ℕ → ℚ) (i : ℕ) : T3 × ℕ :=
  if m.if_abs_pos_embed then
    let x1 := x.map (fun s => List.zipWith addVec s m.pos_embed)
    if m.training then m.posDropTrain g i x1 else (x1, i)
  else (x, i)

/-- Sequence-flip augmentation (source lines 275-278): `random.random()` is
drawn only when the ratio is positive (Python's `and` short-circuits). -/
def flipStage (m : Model) (x : T3) (g : ℕ → ℚ) (i : ℕ) : T3 × Bool × ℕ :=
  if 0 < Model.flip_img_sequences_ratio m then
    if 1 / 100000 < Model.flip_img_sequences_ratio m - g i then (flipT x, true, i + 1)
    else (x, false, i + 1)
  else (x, false, i)

/-- Unidirectional scan (source lines 283-304).  When `if_rope` is set the
body evaluates `self.rope(hidden_states)`, but `__init__` never assigns a
`rope` attribute, so the lookup raises `AttributeError`. -/
def uniLoop (dpT : DropPathFn) (training if_rope flipQ : Bool) :
    List BlockState → (ℕ → ℚ) → (T3 × Option T3) × ℕ →
    Except PyErr ((T3 × Option T3) × ℕ)
  | [], _, st => .ok st
  | b :: t, g, st =>
    let h := st.1.1
    let r := st.1.2
    let hr1 := if flipQ && if_rope then (flipT h, r.map flipT) else (h, r)
    if if_rope then .error (.attributeError "rope")
    else
      let (p, i1) := blockForward dpT training b g st.2 hr1.1 hr1.2
      uniLoop dpT training if_rope flipQ t g ((p.1, some p.2), i1)

/-- The error-free unidirectional scan (reachable exactly when `if_rope` is
off, in which case no flip/unflip happens either). -/
def uniLoopPlain (dpT : DropPathFn) (training : Bool) :
    List BlockState → (ℕ → ℚ) → (T3 × Option T3) × ℕ → (T3 × Option T3) × ℕ
  | [], _, st => st
  | b :: t, g, st =>
    let (p, i1) := blockForward dpT training b g st.2 st.1.1 st.1.2
    uniLoopPlain dpT training t g ((p.1, some p.2), i1)

/-- One bidirectional pair (source lines 313-320): block `2i` consumes the
state as-is, block `2i+1` consumes it flipped along the token axis, and
their outputs are combined as forward + flip(backward), independently for
hidden state and residual. -/
def biStep (dpT : DropPathFn) (training : Bool) (f b : BlockState)
    (g : ℕ → ℚ) (st : (T3 × Option T3) × ℕ) : (T3 × Option T3) × ℕ :=
  let h := st.1.1
  let r := st.1.2
  let (pf, i1) := blockForward dpT training f g st.2 h r
  let (pb, i2) := blockForward dpT training b g i1 (flipT h) (r.map flipT)
  ((addT3 pf.1 (flipT pb.1), some (addT3 pf.2 (flipT pb.2))), i2)

def dflBlock : BlockState :=
  { mixer := fun h => h, norm := fun h => h, fusedNormPre := fun h _ => (h, h),
    drop_path_p := 0, residual_in_fp32 := false, fused_add_norm := false }

/-- Bidirectional scan (source lines 306-320): `for i in range(len//2)`,
indexing blocks `2i` and `2i+1`; a rope lookup inside the loop would raise
`AttributeError` as in the unidirectional case. -/
def biLoopSrc (dpT : DropPathFn) (training if_rope : Bool) (layers : List BlockState)
    (g : ℕ → ℚ) (st : (T3 × Option T3) × ℕ) : Except PyErr ((T3 × Option T3) × ℕ) :=
  (List.range (layers.length / 2)).foldl
    (fun acc i => acc.bind (fun s =>
      if if_rope then .error (.attributeError "rope")
      else .ok (biStep dpT training (layers.getD (2 * i) dflBlock)
        (layers.getD (2 * i + 1) dflBlock) g s)))
    (.ok st)

/-- The error-free bidirectional scan (`if_rope` off). -/
def biLoopIdx (dpT : DropPathFn) (training : Bool) (layers : List BlockState)
    (g : ℕ → ℚ) (st : (T3 × Option T3) × ℕ) : (T3 × Option T3) × ℕ :=
  (List.range (layers.length / 2)).foldl
    (fun s i => biStep dpT training (layers.getD (2 * i) dflBlock)
      (layers.getD (2 * i + 1) dflBlock) g s)
    st

/-- The block-stack dispatch (source line 283 / 306). -/
def stackStage (m : Model) (flipQ : Bool) (x : T3) (g : ℕ → ℚ) (i : ℕ) :
    Except PyErr ((T3 × Option T3) × ℕ) :=
  if m.if_bidirectional = false then
    uniLoop m.dropPathTrain m.training m.if_rope flipQ m.layers g ((x, none), i)
  else
    biLoopSrc m.dropPathTrain m.training m.if_rope m.layers g ((x, none), i)

/-- The error-free block stack. -/
def stackOk (m : Model) (x : T3) (g : ℕ → ℚ) (i : ℕ) : (T3 × Option T3) × ℕ :=
  if m.if_bidirectional = false then
    uniLoopPlain m.dropPathTrain m.training m.layers g ((x, none), i)
  else
    biLoopIdx m.dropPathTrain m.training m.layers g ((x, none), i)

/-- The `self.drop_path` operator of the model (source line 206): `DropPath(rate)` when
the rate is positive, `nn.Identity()` otherwise; training-mode DropPath is
the abstract collaborator, evaluation mode is the identity. -/
def selfDropPath (m : Model) (g : ℕ → ℚ) (i : ℕ) (x : T3) : T3 × ℕ :=
  if 0 < m.drop_path_rate then
    if m.training then m.dropPathTrain m.drop_path_rate g i x else (x, i)
  else (x, i)

/-- Final residual-add + normalization (source lines 322-338). -/
def finalStage (m : Model) (g : ℕ → ℚ) (i : ℕ) (h : T3) (r : Option T3) : T3 × ℕ :=
  if m.fused_add_norm = false then
    match r with
    | none => (m.norm_f h, i)
    | some r0 =>
      let (hd, i1) := selfDropPath m g i h
      (m.norm_f (addT3 r0 hd), i1)
  else
    let (hd, i1) := selfDropPath m g i h
    (m.fusedNormFinal hd r, i1)

/-- Model of `hidden_states.mean(dim=1)` for one batch element. -/
def meanTok (s : T2) : Vec :=
  match s with
  | [] => []
  | v :: t => (t.foldl addVec v).map (fun q => q / (t.length + 1))

/-- Result of `forward_features` / `forward`: a rank-1, rank-2 or rank-3
tensor, depending on pooling mode. -/
inductive FFOut where
  | t1 (x : Vec)
  | t2 (x : T2)
  | t3 (x : T3)
deriving DecidableEq, Repr

/-- Output extraction (source lines 340-361): classification-token slices
when a token was inserted, otherwise the configured pooling policy, with an
unrecognized policy raising `NotImplementedError`. -/
def extractOut (m : Model) (h : T3) (tp : TokenPos) : Except PyErr FFOut :=
  if m.if_cls_token then
    if m.use_double_cls_token then
      let pq := match tp with | .pair p q => (p, q) | _ => (0, 0)
      .ok (.t2 (h.map (fun s =>
        (addVec (s.getD pq.1 []) (s.getD pq.2 [])).map (fun q => q / 2))))
    else
      let p := match tp with | .single p => p | _ => 0
      .ok (.t2 (h.map (fun s => s.getD p [])))
  else if m.final_pool_type = "none" then .ok (.t2 (h.map (fun s => s.getLastD [])))
  else if m.final_pool_type = "mean" then .ok (.t2 (h.map meanTok))
  else if m.final_pool_type = "max" then .ok (.t3 h)
  else if m.final_pool_type = "all" then .ok (.t3 h)
  else .error .notImplementedError

/-- Model of `forward_features` (source lines 242-361). -/
def forward_features (m : Model) (x : T3) (g : ℕ → ℚ) (i : ℕ)
    (if_random_cls_token_position : Bool) : Except PyErr (FFOut × ℕ) := do
  let (x1, tp, i1) := clsInsert m x g i if_random_cls_token_position
  let (x2, i2) := posStage m x1 g i1
  let (x3, flipQ, i3) := flipStage m x2 g i2
  let (st, i4) ← stackStage m flipQ x3 g i3
  let (h5, i5) := finalStage m g i4 st.1 st.2
  let out ← extractOut m h5 tp
  return (out, i5)

/-- The error-free final-hidden-state pipeline (everything of
`forward_features` up to and including the final normalization), defined
for the rope-free configurations on which the stack cannot raise. -/
def finalHiddenOk (m : Model) (x : T3) (g : ℕ → ℚ) (i : ℕ)
    (if_random_cls_token_position : Bool) : T3 × ℕ :=
  let (x1, _, i1) := clsInsert m x g i if_random_cls_token_position
  let (x2, i2) := posStage m x1 g i1
  let (x3, _, i3) := flipStage m x2 g i2
  let (st, i4) := stackOk m x3 g i3
  finalStage m g i4 st.1 st.2

/-- Model of `x.max(dim=1)[0]` on the head's output (source line 369). -/
def maxOverTokens : FFOut → FFOut
  | .t1 v => .t1 v
  | .t2 x => .t1 (x.map (fun v => v.foldl max (v.headD 0)))
  | .t3 x => .t2 (x.map (fun s =>
      match s with
      | [] => []
      | v :: t => t.foldl (List.zipWith max) v))

/-- The linear head applied along the last axis. -/
def headOut (m : Model) : FFOut → FFOut
  | .t1 v => .t1 (m.head v)
  | .t2 x => .t2 (x.map m.head)
  | .t3 x => .t3 (x.map (fun s => s.map m.head))

/-- Model of `forward` (source lines 363-370). -/
def forward (m : Model) (x : T3) (g : ℕ → ℚ) (i : ℕ)
    (return_features if_random_cls_token_position : Bool) :
    Except PyErr (FFOut × ℕ) := do
  let (f, i1) ← forward_features m x g i if_random_cls_token_position
  if return_features then return (f, i1)
  else
    let f1 := headOut m f
    if m.final_pool_type = "max" then return (maxOverTokens f1, i1)
    else return (f1, i1)

/-! ## Rope-free executions never raise inside the block stack -/

theorem uniLoop_norope (dpT : DropPathFn) (training flipQ : Bool) :
    ∀ (L : List BlockState) (g : ℕ → ℚ) (st : (T3 × Option T3) × ℕ),
      uniLoop dpT training false flipQ L g st = .ok (uniLoopPlain dpT training L g st) := by
  intro L
  induction L with
  | nil => intro g st; rfl
  | cons b t ih =>
    intro g st
    simp [uniLoop, uniLoopPlain, ih]

theorem foldl_bind_ok {σ : Type} (f : σ → ℕ → σ) (l : List ℕ) (st : σ) :
    l.foldl (fun acc i => acc.bind (fun s => Except.ok (f s i)))
        ((Except.ok st : Except PyErr σ)) =
      .ok (l.foldl f st) := by
  induction l generalizing st with
  | nil => rfl
  | cons a t ih => simpa using ih (f st a)

theorem biLoopSrc_norope (dpT : DropPathFn) (training : Bool)
    (layers : List BlockState) (g : ℕ → ℚ) (st : (T3 × Option T3) × ℕ) :
    biLoopSrc dpT training false layers g st = .ok (biLoopIdx dpT training layers g st) := by
  simpa only [biLoopSrc, biLoopIdx, Bool.false_eq_true, if_false] using
    foldl_bind_ok (fun s i => biStep dpT training (layers.getD (2 * i) dflBlock)
      (layers.getD (2 * i + 1) dflBlock) g s) (List.range (layers.length / 2)) st

theorem stackStage_norope (m : Model) (flipQ : Bool) (x : T3) (g : ℕ → ℚ) (i : ℕ)
    (hrope : m.if_rope = false) :
    stackStage m flipQ x g i = .ok (stackOk m x g i) := by
  unfold stackStage stackOk
  cases hb : m.if_bidirectional <;>
    simp [hb, hrope, uniLoop_norope, biLoopSrc_norope]

theorem forward_features_norope (m : Model) (x : T3) (g : ℕ → ℚ) (i : ℕ)
    (flag : Bool) (hrope : m.if_rope = false) :
    forward_features m x g i flag =
      (extractOut m (finalHiddenOk m x g i flag).1 (clsInsert m x g i flag).2.1).map
        (fun o => (o, (finalHiddenOk m x g i flag).2)) := by
  have hbind : ∀ {α β : Type} (v : α) (f : α → Except PyErr β),
      (Except.ok v >>= f) = f v := fun v f => rfl
  rcases hc : clsInsert m x g i flag with ⟨x1, tp, i1⟩
  rcases hp : posStage m x1 g i1 with ⟨x2, i2⟩
  rcases hf : flipStage m x2 g i2 with ⟨x3, flipQ, i3⟩
  rcases hs : stackOk m x3 g i3 with ⟨st, i4⟩
  have hstack := stackStage_norope m flipQ x3 g i3 hrope
  rw [hs] at hstack
  rcases hfin : finalStage m g i4 st.1 st.2 with ⟨h5, i5⟩
  simp only [forward_features, finalHiddenOk, hc, hp, hf, hs, hstack, hbind, hfin]
  rcases extractOut m h5 tp with e | o <;> rfl

/-! ## The bidirectional pair loop as structural recursion on block pairs -/

/-- Consecutive pairs of a list, dropping a dangling last element. -/
def pairUp {α : Type} : List α → List (α × α)
  | a :: b :: t => (a, b) :: pairUp t
  | _ => []

/-- The bidirectional stack as the spec states it: fold `biStep` over the
forward/backward block pairs in order. -/
def specBiStack (dpT : DropPathFn) (training : Bool) (layers : List BlockState)
    (g : ℕ → ℚ) (st : (T3 × Option T3) × ℕ) : (T3 × Option T3) × ℕ :=
  (pairUp layers).foldl (fun s p => biStep dpT training p.1 p.2 g s) st

theorem pairUp_length {α : Type} : ∀ (l : List α), (pairUp l).length = l.length / 2
  | [] => by simp [pairUp]
  | [_] => by simp [pairUp]
  | a :: b :: t => by
    simp only [pairUp, List.length_cons, pairUp_length t]
    omega

theorem biLoopIdx_cons2 (dpT : DropPathFn) (training : Bool) (a b : BlockState)
    (t : List BlockState) (g : ℕ → ℚ) (st : (T3 × Option T3) × ℕ) :
    biLoopIdx dpT training (a :: b :: t) g st =
      biLoopIdx dpT training t g (biStep dpT training a b g st) := by
  unfold biLoopIdx
  have hlen : (a :: b :: t).length / 2 = t.length / 2 + 1 := by
    simp only [List.length_cons]
    omega
  rw [hlen, List.range_succ_eq_map]
  simp only [List.foldl_cons, List.foldl_map]
  have hfun : (fun (s : (T3 × Option T3) × ℕ) (i : ℕ) =>
      biStep dpT training ((a :: b :: t).getD (2 * Nat.succ i) dflBlock)
        ((a :: b :: t).getD (2 * Nat.succ i + 1) dflBlock) g s) =
      (fun s i => biStep dpT training (t.getD (2 * i) dflBlock)
        (t.getD (2 * i + 1) dflBlock) g s) := by
    funext s i
    have e1 : 2 * Nat.succ i = (2 * i) + 1 + 1 := by omega
    rw [e1, List.getD_cons_succ, List.getD_cons_succ,
      List.getD_cons_succ, List.getD_cons_succ]
  rw [hfun]
  rfl

theorem biLoopIdx_eq_specBiStack (dpT : DropPathFn) (training : Bool) (g : ℕ → ℚ) :
    ∀ (n : ℕ) (L : List BlockState), L.length ≤ n → ∀ st,
      biLoopIdx dpT training L g st = specBiStack dpT training L g st := by
  have hnil : ∀ st, biLoopIdx dpT training [] g st = specBiStack dpT training [] g st := by
    intro st
    have h0 : ([] : List BlockState).length / 2 = 0 := by simp
    unfold biLoopIdx specBiStack
    rw [h0]
    rfl
  have hone : ∀ (a : BlockState) st,
      biLoopIdx dpT training [a] g st = specBiStack dpT training [a] g st := by
    intro a st
    have h1 : ([a] : List BlockState).length / 2 = 0 := by simp
    unfold biLoopIdx specBiStack
    rw [h1]
    rfl
  intro n
  induction n with
  | zero =>
    intro L hL st
    rcases L with _ | ⟨a, L'⟩
    · exact hnil st
    · simp at hL
  | succ k ih =>
    intro L hL st
    rcases L with _ | ⟨a, _ | ⟨b, t⟩⟩
    · exact hnil st
    · exact hone a st
    · rw [biLoopIdx_cons2]
      have ht : t.length ≤ k := by
        simp only [List.length_cons] at hL
        omega
      rw [ih t ht]
      rfl

/-! ## Constructor name resolution (source lines 142-239 and 372-391)

`Bidirectional_Mamba.__init__` executes `super(VisionMamba, self).__init__()`
(line 172).  `VisionMamba` is looked up among the module's global names at
call time; the module never binds it, so every construction raises
`NameError`.  `FusionModel.__init__` additionally references the unbound
global `groups` (line 389). -/

/-- The names bound at the top level of `src/bidirectional_mamba.py`
(imports and the module's own class/function definitions). -/
def moduleGlobals : List String :=
  ["torch", "nn", "Tensor", "trunc_normal_", "DropPath", "partial", "Optional",
   "Mamba", "random", "RMSNorm", "layer_norm_fn", "rms_norm_fn",
   "DepthwiseSeparableConv1D", "Block", "create_block", "Bidirectional_Mamba",
   "FusionModel"]

/-- Python global-name lookup: `NameError` when the name is unbound. -/
def resolveName (n : String) : Except PyErr Unit :=
  if n ∈ moduleGlobals then .ok () else .error (.nameError n)

/-- The recognized keyword arguments of `Bidirectional_Mamba.__init__`,
with the source's default values (unrecognized keywords land in `**kwargs`
and are ignored). -/
structure InitCfg where
  depth : ℕ := 2
  embed_dim : ℕ := 192
  channels : ℕ := 3
  num_classes : ℕ := 1000
  drop_rate : ℚ := 1/10
  drop_path_rate : ℚ := 1/10
  rms_norm : Bool := false
  fused_add_norm : Bool := false
  residual_in_fp32 : Bool := false
  if_rope : Bool := false
  if_bidirectional : Bool := true
  final_pool_type : String := "none"
  if_abs_pos_embed : Bool := false
  if_rope_residual : Bool := false
  flip_img_sequences_ratio : ℚ := -1
  if_cls_token : Bool := false
  use_double_cls_token : Bool := false
  use_middle_cls_token : Bool := false

/-- The structural summary a completed `Bidirectional_Mamba.__init__` would
leave behind: token count, block count and per-block drop-path rates, and
whether the classification head is `nn.Identity`. -/
structure InitState where
  num_tokens : ℕ
  num_classes : ℕ
  embed_dim : ℕ
  layer_count : ℕ
  layer_drop_paths : List ℚ
  head_is_identity : Bool

/-- Model of `Bidirectional_Mamba.__init__` (source lines 142-239).  The first
effectful statement after the local `factory_kwargs`/`kwargs` updates is
`super(VisionMamba, self).__init__()`, which resolves the module-global
name `VisionMamba`; the remainder (lines 173-239) is the construction the
spec describes, reachable only if that lookup succeeded. -/
def Bidirectional_Mamba_init (cfg : InitCfg) : Except PyErr InitState := do
  let _ ← resolveName "VisionMamba"
  pure
    { num_tokens := if cfg.if_cls_token then (if cfg.use_double_cls_token then 2 else 1) else 0,
      num_classes := cfg.num_classes,
      embed_dim := cfg.embed_dim,
      layer_count := cfg.depth,
      layer_drop_paths := blockDropPaths cfg.drop_path_rate cfg.depth,
      head_is_identity := cfg.num_classes == 0 }

theorem Bidirectional_Mamba_init_err (cfg : InitCfg) :
    Bidirectional_Mamba_init cfg = .error (.nameError "VisionMamba") := by
  have h : "VisionMamba" ∉ moduleGlobals := by decide
  unfold Bidirectional_Mamba_init resolveName
  rw [if_neg h]
  rfl

/-- C1 (code bug): the claim says every valid configuration constructs a
model with `depth` blocks, a final norm and a classification head; the
code instead raises `NameError` on every configuration, because
`super(VisionMamba, self).__init__()` references the undefined global
`VisionMamba` (line 172). -/
theorem C1_constructor_raises_NameError (cfg : InitCfg) :
    Bidirectional_Mamba_init cfg = .error (.nameError "VisionMamba") :=
  Bidirectional_Mamba_init_err cfg

/-- Model of `FusionModel.__init__` (source lines 372-391): builds the
`Bidirectional_Mamba` first (passing `if_cls_token=True`,
`use_double_cls_token=True`, and a junk keyword absorbed by `**kwargs`),
then the `DepthwiseSeparableConv1D` whose `groups=groups` argument
references the unbound module-global `groups`. -/
def FusionModel_init (depth embed_dim channels num_classes
    _in_channels _out_channels _kernel_size : ℕ) :
    Except PyErr (InitState × Unit) := do
  let bimodel ← Bidirectional_Mamba_init
    { depth := depth, embed_dim := embed_dim, channels := channels,
      num_classes := num_classes, if_cls_token := true,
      use_double_cls_token := true }
  let _ ← resolveName "groups"
  pure (bimodel, ())

/-- C10: every `FusionModel(...)` call raises `NameError` before any module
is built — the inner `Bidirectional_Mamba` constructor trips over the
undefined `VisionMamba`, and the convolution construction would in turn
reference the unbound `groups`; no `FusionModel` instance can exist. -/
theorem C10_FusionModel_init_NameError
    (depth embed_dim channels num_classes in_channels out_channels kernel_size : ℕ) :
    FusionModel_init depth embed_dim channels num_classes
        in_channels out_channels kernel_size = .error (.nameError "VisionMamba") ∧
    "VisionMamba" ∉ moduleGlobals ∧ "groups" ∉ moduleGlobals := by
  refine ⟨?_, by decide, by decide⟩
  unfold FusionModel_init
  rw [Bidirectional_Mamba_init_err]
  rfl

/-- C2 (amended): in bidirectional mode (rotary option off) the block
stack performs exactly `layers.length / 2` pair iterations — it equals the
fold of `biStep` over the consecutive forward/backward block pairs, where
each pair feeds the current hidden state and residual to the even block
unchanged and their token-axis flips to the odd block, and combines the
outputs as forward + flip(backward), independently for hidden state and
residual.  For depth 4 that is exactly 2 pairs; an odd trailing block
(depth 3) is silently ignored rather than making the configuration
invalid. -/
theorem C2_bidirectional_pair_iterations (m : Model) (flipQ : Bool) (x : T3)
    (g : ℕ → ℚ) (i : ℕ) (hbi : m.if_bidirectional = true)
    (hrope : m.if_rope = false) :
    stackStage m flipQ x g i =
      .ok (specBiStack m.dropPathTrain m.training m.layers g ((x, none), i)) ∧
    (pairUp m.layers).length = m.layers.length / 2 := by
  constructor
  · rw [stackStage_norope m flipQ x g i hrope]
    unfold stackOk
    simp only [hbi, Bool.true_eq_false, if_false]
    rw [biLoopIdx_eq_specBiStack m.dropPathTrain m.training g
      m.layers.length m.layers le_rfl ((x, none), i)]
  · exact pairUp_length m.layers

/-- C6 (amended): an unrecognized pooling policy raises
`NotImplementedError` at call time — but only when the classification token
is disabled (and the rope option is off, which is required for the call to
reach extraction at all); with a classification token the pooling policy is
never consulted. -/
theorem C6_unrecognized_pool_raises (m : Model) (x : T3) (g : ℕ → ℚ) (i : ℕ)
    (flag : Bool) (hcls : m.if_cls_token = false) (hrope : m.if_rope = false)
    (h1 : m.final_pool_type ≠ "none") (h2 : m.final_pool_type ≠ "mean")
    (h3 : m.final_pool_type ≠ "max") (h4 : m.final_pool_type ≠ "all") :
    forward_features m x g i flag = .error .notImplementedError := by
  rw [forward_features_norope m x g i flag hrope]
  unfold extractOut
  simp [hcls, h1, h2, h3, h4, Except.map]

/-- C8 (code bug): the claim says the rotary transform is applied before
each block in unidirectional rope mode; in the code the first loop
iteration evaluates `self.rope(hidden_states)` but `__init__` never assigns
a `rope` attribute (it also reads the never-assigned
`if_rope_residuals`), so `forward_features` raises `AttributeError`. -/
theorem C8_unidirectional_rope_AttributeError (m : Model) (x : T3) (g : ℕ → ℚ)
    (i : ℕ) (flag : Bool) (hbi : m.if_bidirectional = false)
    (hrope : m.if_rope = true) (hL : m.layers ≠ []) :
    forward_features m x g i flag = .error (.attributeError "rope") := by
  rcases hc : clsInsert m x g i flag with ⟨x1, tp, i1⟩
  rcases hp : posStage m x1 g i1 with ⟨x2, i2⟩
  rcases hf : flipStage m x2 g i2 with ⟨x3, flipQ, i3⟩
  rcases hLs : m.layers with _ | ⟨b, t⟩
  · exact absurd hLs hL
  · have hstack : stackStage m flipQ x3 g i3 = .error (.attributeError "rope") := by
      unfold stackStage
      simp [hbi, hLs, uniLoop, hrope]
    simp only [forward_features, hc, hp, hf, hstack]
    rfl

/-! ## Concrete example configurations for witnesses and counterexamples -/

/-- A block whose mixer adds 1 to every entry. -/
def blkA : BlockState :=
  { mixer := fun h => h.map (fun s => s.map (fun v => v.map (fun q => q + 1))),
    norm := fun h => h, fusedNormPre := fun h _ => (h, h),
    drop_path_p := 0, residual_in_fp32 := false, fused_add_norm := false }

/-- A block whose mixer would visibly change any state it processed. -/
def blkBig : BlockState :=
  { mixer := fun _ => [[[99]]], norm := fun _ => [[[99]]],
    fusedNormPre := fun _ _ => ([[[99]]], [[[99]]]),
    drop_path_p := 0, residual_in_fp32 := false, fused_add_norm := false }

def gZero : ℕ → ℚ := fun _ => 0

/-- Baseline evaluation-mode model: bidirectional, no extras, pool "none". -/
def mBase : Model :=
  { training := false, residual_in_fp32 := false, fused_add_norm := false,
    if_bidirectional := true, final_pool_type := "none",
    if_abs_pos_embed := false, if_rope_residual := false,
    flip_img_sequences_ratio := -1, if_rope := false, if_cls_token := false,
    use_double_cls_token := false, use_middle_cls_token := false,
    cls_token_head := [0], cls_token_tail := [0], cls_token := [0],
    pos_embed := [], drop_path_rate := 0, layers := [],
    norm_f := fun h => h, fusedNormFinal := fun h _ => h,
    posDropTrain := fun _ i x => (x, i),
    dropPathTrain := fun _ _ i x => (x, i), head := fun v => v }

def m3 : Model := { mBase with layers := [blkA, blkA, blkBig] }

def m2 : Model := { mBase with layers := [blkA, blkA] }

instance {ε α : Type} [DecidableEq ε] [DecidableEq α] : DecidableEq (Except ε α)
  | .ok a, .ok b =>
    if h : a = b then .isTrue (by rw [h]) else .isFalse (by intro e; cases e; exact h rfl)
  | .error a, .error b =>
    if h : a = b then .isTrue (by rw [h]) else .isFalse (by intro e; cases e; exact h rfl)
  | .ok _, .error _ => .isFalse (by intro e; cases e)
  | .error _, .ok _ => .isFalse (by intro e; cases e)

def m4 : Model := { mBase with layers := [blkA, blkA, blkA, blkA] }

def mDouble : Model :=
  { mBase with
    if_cls_token := true, use_double_cls_token := true,
    final_pool_type := "avg" }

def mBad : Model := { mBase with final_pool_type := "avg" }

def mRope : Model :=
  { mBase with
    if_bidirectional := false, if_rope := true, layers := [blkA] }

/-- C2 counterexample: a depth-3 bidirectional configuration is not
invalid/undefined — the forward pass succeeds, running a single pair and
silently ignoring the third block: the result equals the depth-2 model's,
although the third block would visibly change anything it processed. -/
theorem C2_counterexample :
    forward_features m3 [[[1]]] gZero 0 false = .ok (.t2 [[6]], 0) ∧
    forward_features m3 [[[1]]] gZero 0 false =
      forward_features m2 [[[1]]] gZero 0 false := by
  have h3 : forward_features m3 [[[1]]] gZero 0 false = .ok (.t2 [[6]], 0) := by
    simp [forward_features, clsInsert, posStage, flipStage, stackStage, biLoopSrc,
      biStep, blockForward, applyDropPath, addT3, addT2, addVec, flipT, finalStage,
      selfDropPath, extractOut, m3, mBase, blkA, blkBig, gZero, dflBlock,
      List.range_succ, Except.bind, bind, pure, Except.pure, Except.map,
      Function.comp]
    norm_num
  have h2 : forward_features m2 [[[1]]] gZero 0 false = .ok (.t2 [[6]], 0) := by
    simp [forward_features, clsInsert, posStage, flipStage, stackStage, biLoopSrc,
      biStep, blockForward, applyDropPath, addT3, addT2, addVec, flipT, finalStage,
      selfDropPath, extractOut, m2, mBase, blkA, gZero, dflBlock,
      List.range_succ, Except.bind, bind, pure, Except.pure, Except.map,
      Function.comp]
    norm_num
  exact ⟨h3, h3.trans h2.symm⟩

/-- Witness for C2 at a concrete depth-4 bidirectional model: exactly two
forward/backward pairs. -/
theorem C2_bidirectional_pair_iterations_witness :
    stackStage m4 false [[[1]]] gZero 0 =
      .ok (specBiStack m4.dropPathTrain m4.training m4.layers gZero (([[[1]]], none), 0)) ∧
    (pairUp m4.layers).length = 2 := by
  have h := C2_bidirectional_pair_iterations m4 false [[[1]]] gZero 0 rfl rfl
  refine ⟨h.1, ?_⟩
  rw [h.2]
  decide

/-- C6 counterexample: with the double classification token enabled, an
unrecognized pooling policy ("avg") does not raise — `forward_features`
returns the token extraction, so the claim's "regardless of the other
configuration flags" is false. -/
theorem C6_counterexample :
    mDouble.final_pool_type = "avg" ∧ mDouble.if_cls_token = true ∧
    forward_features mDouble [[[1]]] gZero 0 false = .ok (.t2 [[0]], 0) := by
  refine ⟨rfl, rfl, ?_⟩
  simp [forward_features, clsInsert, posStage, flipStage, stackStage, biLoopSrc,
    biStep, blockForward, applyDropPath, addT3, addT2, addVec, flipT, finalStage,
    selfDropPath, extractOut, mDouble, mBase, gZero, dflBlock,
    Except.bind, bind, pure, Except.pure, Except.map]
  norm_num

/-- Witness for C6 (amended): pooling policy "avg" with the classification
token disabled raises `NotImplementedError`. -/
theorem C6_unrecognized_pool_raises_witness :
    forward_features mBad [[[1]]] gZero 0 false = .error .notImplementedError :=
  C6_unrecognized_pool_raises mBad [[[1]]] gZero 0 false rfl rfl
    (by decide) (by decide) (by decide) (by decide)

/-- Witness for C8: a one-block unidirectional model with the rope option
enabled raises `AttributeError` on any input. -/
theorem C8_unidirectional_rope_AttributeError_witness :
    forward_features mRope [[[1]]] gZero 0 false = .error (.attributeError "rope") :=
  C8_unidirectional_rope_AttributeError mRope [[[1]]] gZero 0 false rfl rfl
    (by simp [mRope])

/-! ## Shape preservation through the pipeline

The collaborator contract (spec section 6) is that the mixer, the
normalization layers, the fused add-norm kernels and the dropout operators
return tensors of the same shape as their input; these appear as
hypotheses on the abstract function fields. -/

/-- Predicate: `f` preserves (B, M, D)-shaped tensors. -/
def PS3 (f : T3 → T3) (B M D : ℕ) : Prop :=
  ∀ y, shape3 y B M D → shape3 (f y) B M D

/-- Collaborator shape contract for one block. -/
def BlockShapes (b : BlockState) (B M D : ℕ) : Prop :=
  PS3 b.mixer B M D ∧ PS3 b.norm B M D ∧
  ∀ h r, shape3 h B M D → (∀ r0 ∈ r, shape3 r0 B M D) →
    shape3 (b.fusedNormPre h r).1 B M D ∧ shape3 (b.fusedNormPre h r).2 B M D

/-- Collaborator shape contract for the whole model at token count M. -/
def ModelShapes (m : Model) (B M D : ℕ) : Prop :=
  (∀ b ∈ m.layers, BlockShapes b B M D) ∧
  PS3 m.norm_f B M D ∧
  (∀ h r, shape3 h B M D → (∀ r0 ∈ r, shape3 r0 B M D) →
    shape3 (m.fusedNormFinal h r) B M D) ∧
  (m.if_abs_pos_embed = true → shape2 m.pos_embed M D) ∧
  (∀ p g i y, shape3 y B M D → shape3 (m.dropPathTrain p g i y).1 B M D) ∧
  (∀ g i y, shape3 y B M D → shape3 (m.posDropTrain g i y).1 B M D)

theorem addVec_length {a b : Vec} {D : ℕ} (ha : a.length = D) (hb : b.length = D) :
    (addVec a b).length = D := by
  simp [addVec, ha, hb]

theorem shape2_addT2 {a b : T2} {M D : ℕ} (ha : shape2 a M D) (hb : shape2 b M D) :
    shape2 (addT2 a b) M D := by
  refine ⟨by simp [addT2, ha.1, hb.1], ?_⟩
  intro v hv
  rw [addT2, List.mem_iff_getElem] at hv
  obtain ⟨i, hi, rfl⟩ := hv
  rw [List.getElem_zipWith]
  exact addVec_length (ha.2 _ (List.getElem_mem _)) (hb.2 _ (List.getElem_mem _))

theorem shape3_addT3 {a b : T3} {B M D : ℕ} (ha : shape3 a B M D) (hb : shape3 b B M D) :
    shape3 (addT3 a b) B M D := by
  refine ⟨by simp [addT3, ha.1, hb.1], ?_⟩
  intro s hs
  rw [addT3, List.mem_iff_getElem] at hs
  obtain ⟨i, hi, rfl⟩ := hs
  rw [List.getElem_zipWith]
  exact shape2_addT2 (ha.2 _ (List.getElem_mem _)) (hb.2 _ (List.getElem_mem _))

theorem shape3_flipT {x : T3} {B M D : ℕ} (hx : shape3 x B M D) :
    shape3 (flipT x) B M D := by
  refine ⟨by simp [flipT, hx.1], ?_⟩
  intro s hs
  simp only [flipT, List.mem_map] at hs
  obtain ⟨t, ht, rfl⟩ := hs
  have h2 := hx.2 t ht
  exact ⟨by simp [h2.1], fun v hv => h2.2 v (List.mem_reverse.mp hv)⟩

theorem applyDropPath_shape {dpT : DropPathFn} {B M D : ℕ}
    (hdp : ∀ p g i y, shape3 y B M D → shape3 (dpT p g i y).1 B M D)
    (training : Bool) (p : ℚ) (g : ℕ → ℚ) (i : ℕ) {x : T3} (hx : shape3 x B M D) :
    shape3 (applyDropPath dpT training p g i x).1 B M D := by
  unfold applyDropPath
  cases training
  · simpa using hx
  · simpa using hdp p g i x hx

theorem blockForward_shape {dpT : DropPathFn} {b : BlockState}
    {B M D : ℕ} (training : Bool)
    (hdp : ∀ p g i y, shape3 y B M D → shape3 (dpT p g i y).1 B M D)
    (hb : BlockShapes b B M D) (g : ℕ → ℚ) (i : ℕ) {h : T3} {r : Option T3}
    (hh : shape3 h B M D) (hr : ∀ r0 ∈ r, shape3 r0 B M D) :
    shape3 (blockForward dpT training b g i h r).1.1 B M D ∧
    shape3 (blockForward dpT training b g i h r).1.2 B M D := by
  obtain ⟨hmix, hnorm, hfp⟩ := hb
  unfold blockForward
  by_cases hf : b.fused_add_norm = false
  · rw [if_pos hf]
    cases r with
    | none => exact ⟨hmix _ (hnorm _ hh), hh⟩
    | some r0 =>
      have hr0 : shape3 r0 B M D := hr r0 (by simp)
      have hres : shape3 (addT3 r0
          (applyDropPath dpT training b.drop_path_p g i (b.mixer h)).1) B M D :=
        shape3_addT3 hr0 (applyDropPath_shape hdp _ _ _ _ (hmix _ hh))
      exact ⟨hmix _ (hnorm _ hres), hres⟩
  · rw [if_neg hf]
    cases r with
    | none =>
      have hp := hfp h none hh (by intro r0 h0; simp at h0)
      exact ⟨hmix _ hp.1, hp.2⟩
    | some r0 =>
      have hr0 : shape3 r0 B M D := hr r0 (by simp)
      have hhd : shape3 (applyDropPath dpT training b.drop_path_p g i h).1 B M D :=
        applyDropPath_shape hdp _ _ _ _ hh
      have hp := hfp _ (some r0) hhd (by intro r1 h1; simp at h1; rwa [← h1])
      exact ⟨hmix _ hp.1, hp.2⟩

theorem uniLoopPlain_shape {dpT : DropPathFn} {training : Bool} {B M D : ℕ}
    (hdp : ∀ p g i y, shape3 y B M D → shape3 (dpT p g i y).1 B M D) :
    ∀ (L : List BlockState), (∀ b ∈ L, BlockShapes b B M D) →
    ∀ (g : ℕ → ℚ) (st : (T3 × Option T3) × ℕ),
      shape3 st.1.1 B M D → (∀ r0 ∈ st.1.2, shape3 r0 B M D) →
      shape3 (uniLoopPlain dpT training L g st).1.1 B M D ∧
      ∀ r0 ∈ (uniLoopPlain dpT training L g st).1.2, shape3 r0 B M D := by
  intro L
  induction L with
  | nil => intro _ g st hh hr; exact ⟨hh, hr⟩
  | cons b t ih =>
    intro hbs g st hh hr
    have hbf := blockForward_shape training hdp (hbs b (by simp)) g st.2 hh hr
    refine ih (fun b' hb' => hbs b' (by simp [hb'])) g _ hbf.1 ?_
    intro r0 h0
    rw [Option.mem_def, Option.some.injEq] at h0
    rw [← h0]
    exact hbf.2

theorem biStep_shape {dpT : DropPathFn} {f b : BlockState}
    {B M D : ℕ} (training : Bool)
    (hdp : ∀ p g i y, shape3 y B M D → shape3 (dpT p g i y).1 B M D)
    (hf : BlockShapes f B M D) (hb : BlockShapes b B M D) (g : ℕ → ℚ)
    {st : (T3 × Option T3) × ℕ}
    (hh : shape3 st.1.1 B M D) (hr : ∀ r0 ∈ st.1.2, shape3 r0 B M D) :
    shape3 (biStep dpT training f b g st).1.1 B M D ∧
    ∀ r0 ∈ (biStep dpT training f b g st).1.2, shape3 r0 B M D := by
  have h1 := blockForward_shape training hdp hf g st.2 hh hr
  have hrflip : ∀ r0 ∈ st.1.2.map flipT, shape3 r0 B M D := by
    intro r0 h0
    rcases hcase : st.1.2 with _ | r1
    · rw [hcase] at h0; simp at h0
    · rw [hcase] at h0
      simp at h0
      rw [← h0]
      exact shape3_flipT (hr r1 (by simp [hcase]))
  have h2 := blockForward_shape training hdp hb g
    (blockForward dpT training f g st.2 st.1.1 st.1.2).2 (shape3_flipT hh) hrflip
  constructor
  · exact shape3_addT3 h1.1 (shape3_flipT h2.1)
  · intro r0 h0
    simp only [biStep, Option.mem_def, Option.some.injEq] at h0
    rw [← h0]
    exact shape3_addT3 h1.2 (shape3_flipT h2.2)

theorem pairUp_mem {α : Type} :
    ∀ {l : List α} {p : α × α}, p ∈ pairUp l → p.1 ∈ l ∧ p.2 ∈ l
  | a :: b :: t, p, hp => by
    simp only [pairUp, List.mem_cons] at hp
    rcases hp with h | h
    · rw [h]; exact ⟨by simp, by simp⟩
    · have := pairUp_mem h
      exact ⟨by simp [this.1], by simp [this.2]⟩
  | [], p, hp => by simp [pairUp] at hp
  | [a], p, hp => by simp [pairUp] at hp

theorem pairFold_shape {dpT : DropPathFn} {training : Bool} {B M D : ℕ}
    (hdp : ∀ p g i y, shape3 y B M D → shape3 (dpT p g i y).1 B M D) (g : ℕ → ℚ) :
    ∀ (ps : List (BlockState × BlockState)),
      (∀ p ∈ ps, BlockShapes p.1 B M D ∧ BlockShapes p.2 B M D) →
    ∀ (st : (T3 × Option T3) × ℕ),
      shape3 st.1.1 B M D → (∀ r0 ∈ st.1.2, shape3 r0 B M D) →
      shape3 ((ps.foldl (fun s p => biStep dpT training p.1 p.2 g s) st)).1.1 B M D ∧
      ∀ r0 ∈ ((ps.foldl (fun s p => biStep dpT training p.1 p.2 g s) st)).1.2,
        shape3 r0 B M D := by
  intro ps
  induction ps with
  | nil => intro _ st hh hr; exact ⟨hh, hr⟩
  | cons p t ih =>
    intro hps st hh hr
    have hp := hps p (by simp)
    have hstep := biStep_shape training hdp hp.1 hp.2 g hh hr
    exact ih (fun q hq => hps q (by simp [hq])) _ hstep.1 hstep.2

theorem biLoopIdx_shape {dpT : DropPathFn} {training : Bool} {B M D : ℕ}
    (hdp : ∀ p g i y, shape3 y B M D → shape3 (dpT p g i y).1 B M D)
    (layers : List BlockState) (hbs : ∀ b ∈ layers, BlockShapes b B M D)
    (g : ℕ → ℚ) (st : (T3 × Option T3) × ℕ)
    (hh : shape3 st.1.1 B M D) (hr : ∀ r0 ∈ st.1.2, shape3 r0 B M D) :
    shape3 (biLoopIdx dpT training layers g st).1.1 B M D ∧
    ∀ r0 ∈ (biLoopIdx dpT training layers g st).1.2, shape3 r0 B M D := by
  rw [biLoopIdx_eq_specBiStack dpT training g layers.length layers le_rfl st]
  exact pairFold_shape hdp g (pairUp layers)
    (fun p hp => ⟨hbs _ (pairUp_mem hp).1, hbs _ (pairUp_mem hp).2⟩) st hh hr

theorem stackOk_shape {m : Model} {B M D : ℕ} (hms : ModelShapes m B M D)
    (x : T3) (g : ℕ → ℚ) (i : ℕ) (hx : shape3 x B M D) :
    shape3 (stackOk m x g i).1.1 B M D ∧
    ∀ r0 ∈ (stackOk m x g i).1.2, shape3 r0 B M D := by
  have hnone : ∀ r0 ∈ (none : Option T3), shape3 r0 B M D := by
    intro r0 h0; simp at h0
  unfold stackOk
  by_cases hb : m.if_bidirectional = false
  · rw [if_pos hb]
    exact uniLoopPlain_shape hms.2.2.2.2.1 m.layers hms.1 g ((x, none), i) hx hnone
  · rw [if_neg hb]
    exact biLoopIdx_shape hms.2.2.2.2.1 m.layers hms.1 g ((x, none), i) hx hnone

theorem selfDropPath_shape {m : Model} {B M D : ℕ}
    (hdp : ∀ p g i y, shape3 y B M D → shape3 (m.dropPathTrain p g i y).1 B M D)
    (g : ℕ → ℚ) (i : ℕ) {x : T3} (hx : shape3 x B M D) :
    shape3 (selfDropPath m g i x).1 B M D := by
  unfold selfDropPath
  split
  · split
    · exact hdp _ _ _ _ hx
    · exact hx
  · exact hx

theorem finalStage_shape {m : Model} {B M D : ℕ} (hms : ModelShapes m B M D)
    (g : ℕ → ℚ) (i : ℕ) {h : T3} {r : Option T3}
    (hh : shape3 h B M D) (hr : ∀ r0 ∈ r, shape3 r0 B M D) :
    shape3 (finalStage m g i h r).1 B M D := by
  unfold finalStage
  by_cases hf : m.fused_add_norm = false
  · rw [if_pos hf]
    cases r with
    | none => exact hms.2.1 _ hh
    | some r0 =>
      exact hms.2.1 _ (shape3_addT3 (hr r0 (by simp))
        (selfDropPath_shape hms.2.2.2.2.1 g i hh))
  · rw [if_neg hf]
    exact hms.2.2.1 _ r (selfDropPath_shape hms.2.2.2.2.1 g i hh) hr

theorem posStage_shape {m : Model} {B M D : ℕ} (hms : ModelShapes m B M D)
    {x : T3} (g : ℕ → ℚ) (i : ℕ) (hx : shape3 x B M D) :
    shape3 (posStage m x g i).1 B M D := by
  unfold posStage
  cases habs : m.if_abs_pos_embed with
  | false => simpa using hx
  | true =>
    have hpe := hms.2.2.2.1 habs
    have hx1 : shape3 (x.map (fun s => List.zipWith addVec s m.pos_embed)) B M D := by
      refine ⟨by simp [hx.1], ?_⟩
      intro s hs
      simp only [List.mem_map] at hs
      obtain ⟨t, ht, rfl⟩ := hs
      exact shape2_addT2 (hx.2 t ht) hpe
    simp only [if_pos]
    cases htr : m.training
    · simpa using hx1
    · simpa using hms.2.2.2.2.2 g i _ hx1

theorem flipStage_shape {m : Model} {B M D : ℕ} {x : T3} (g : ℕ → ℚ) (i : ℕ)
    (hx : shape3 x B M D) : shape3 (flipStage m x g i).1 B M D := by
  unfold flipStage
  split
  · split
    · exact shape3_flipT hx
    · exact hx
  · exact hx

/-- The pipeline downstream of token insertion. -/
def postCls (m : Model) (x1 : T3) (g : ℕ → ℚ) (i1 : ℕ) : T3 × ℕ :=
  let (x2, i2) := posStage m x1 g i1
  let (x3, _, i3) := flipStage m x2 g i2
  let (st, i4) := stackOk m x3 g i3
  finalStage m g i4 st.1 st.2

theorem finalHiddenOk_eq (m : Model) (x : T3) (g : ℕ → ℚ) (i : ℕ) (flag : Bool) :
    finalHiddenOk m x g i flag =
      postCls m (clsInsert m x g i flag).1 g (clsInsert m x g i flag).2.2 := by
  rcases hc : clsInsert m x g i flag with ⟨x1, tp, i1⟩
  simp only [finalHiddenOk, postCls, hc]

theorem postCls_shape {m : Model} {B M D : ℕ} (hms : ModelShapes m B M D)
    {x1 : T3} (g : ℕ → ℚ) (i1 : ℕ) (h1 : shape3 x1 B M D) :
    shape3 (postCls m x1 g i1).1 B M D := by
  rcases hp : posStage m x1 g i1 with ⟨x2, i2⟩
  have hx2 : shape3 x2 B M D := by
    have := posStage_shape hms g i1 h1
    rwa [hp] at this
  rcases hf : flipStage m x2 g i2 with ⟨x3, fq, i3⟩
  have hx3 : shape3 x3 B M D := by
    have : shape3 (flipStage m x2 g i2).1 B M D := flipStage_shape g i2 hx2
    rwa [hf] at this
  rcases hs : stackOk m x3 g i3 with ⟨st, i4⟩
  have hst := stackOk_shape hms x3 g i3 hx3
  rw [hs] at hst
  have := finalStage_shape hms g i4 hst.1 hst.2
  simpa [postCls, hp, hf, hs] using this

/-! ## Extraction lemmas and token-axis statistics -/

theorem headD_length_of_shape3 {x : T3} {B M D : ℕ} (hx : shape3 x B M D)
    (hB : 1 ≤ B) : (x.headD []).length = M := by
  rcases x with _ | ⟨s, t⟩
  · exfalso
    have := hx.1
    simp at this
    omega
  · exact (hx.2 s (by simp)).1

theorem getD_length_of_shape2 {s : T2} {M D n : ℕ} (h : shape2 s M D) (hn : n < M) :
    (s.getD n []).length = D := by
  rw [List.getD_eq_getElem _ _ (by rw [h.1]; exact hn)]
  exact h.2 _ (List.getElem_mem _)

theorem getD_row_shape3 {x : T3} {B M D b : ℕ} (hx : shape3 x B M D) (hb : b < B) :
    shape2 (x.getD b []) M D := by
  rw [List.getD_eq_getElem _ _ (by rw [hx.1]; exact hb)]
  exact hx.2 _ (List.getElem_mem _)

theorem getD_map_of_lt {α β : Type} (f : α → β) (l : List α) (b : ℕ)
    (hb : b < l.length) (d : β) (d2 : α) : (l.map f).getD b d = f (l.getD b d2) := by
  rw [List.getD_eq_getElem _ _ (by simpa using hb), List.getElem_map,
    List.getD_eq_getElem _ _ hb]

theorem getLastD_eq_getD : ∀ (s : T2), s ≠ [] → s.getLastD [] = s.getD (s.length - 1) []
  | [v], _ => rfl
  | v :: w :: t, _ => by
    have ih := getLastD_eq_getD (w :: t) (by simp)
    have h1 : (v :: w :: t).getLastD [] = (w :: t).getLastD [] := by
      simp [List.getLastD_eq_getLast?, List.getLast?_cons_cons]
    have h2 : (v :: w :: t).length - 1 = ((w :: t).length - 1) + 1 := by simp
    rw [h1, ih, h2, List.getD_cons_succ]

theorem clsInsert_double (m : Model) (x : T3) (g : ℕ → ℚ) (i : ℕ) (flag : Bool)
    (hcls : m.if_cls_token = true) (hdb : m.use_double_cls_token = true) :
    clsInsert m x g i flag =
      (x.map (fun s => m.cls_token_head :: s ++ [m.cls_token_tail]),
       .pair 0 ((x.headD []).length + 1), i) := by
  unfold clsInsert
  rw [hcls, hdb]
  rfl

theorem clsInsert_nocls (m : Model) (x : T3) (g : ℕ → ℚ) (i : ℕ) (flag : Bool)
    (hcls : m.if_cls_token = false) : clsInsert m x g i flag = (x, .noTok, i) := by
  unfold clsInsert
  rw [hcls]
  rfl

theorem clsInsert_double_shape {m : Model} {x : T3} {B M D : ℕ}
    (hx : shape3 x B M D) (hch : m.cls_token_head.length = D)
    (hct : m.cls_token_tail.length = D) :
    shape3 (x.map (fun s => m.cls_token_head :: s ++ [m.cls_token_tail])) B (M + 2) D := by
  refine ⟨by simp [hx.1], ?_⟩
  intro s hs
  simp only [List.mem_map] at hs
  obtain ⟨t, ht, rfl⟩ := hs
  have h2 := hx.2 t ht
  constructor
  · simp [h2.1]
  · intro v hv
    rcases List.mem_cons.mp hv with rfl | hv2
    · exact hch
    · rcases List.mem_append.mp hv2 with hv3 | hv4
      · exact h2.2 v hv3
      · rw [List.mem_singleton.mp hv4]
        exact hct

theorem extractOut_double (m : Model) (h : T3) (p q : ℕ)
    (hcls : m.if_cls_token = true) (hdb : m.use_double_cls_token = true) :
    extractOut m h (.pair p q) =
      .ok (.t2 (h.map (fun s =>
        (addVec (s.getD p []) (s.getD q [])).map (fun z => z / 2)))) := by
  unfold extractOut
  rw [hcls, hdb]
  rfl

theorem extractOut_nocls_none (m : Model) (h : T3) (tp : TokenPos)
    (hcls : m.if_cls_token = false) (hp : m.final_pool_type = "none") :
    extractOut m h tp = .ok (.t2 (h.map (fun s => s.getLastD []))) := by
  unfold extractOut
  rw [hcls, hp]
  rfl

theorem extractOut_nocls_mean (m : Model) (h : T3) (tp : TokenPos)
    (hcls : m.if_cls_token = false) (hp : m.final_pool_type = "mean") :
    extractOut m h tp = .ok (.t2 (h.map meanTok)) := by
  unfold extractOut
  rw [hcls, hp]
  rfl

theorem foldl_addVec_length {D : ℕ} :
    ∀ (t : List Vec) (v : Vec), v.length = D → (∀ w ∈ t, w.length = D) →
      (t.foldl addVec v).length = D
  | [], v, hv, _ => hv
  | w :: t, v, hv, hw => by
    have := foldl_addVec_length t (addVec v w)
      (addVec_length hv (hw w (by simp))) (fun u hu => hw u (by simp [hu]))
    simpa [List.foldl_cons] using this

theorem addVec_getD_aux :
    ∀ (a b : Vec) (d : ℕ), d < a.length → d < b.length →
      (addVec a b).getD d 0 = a.getD d 0 + b.getD d 0
  | _ :: _, _ :: _, 0, _, _ => rfl
  | x :: a, y :: b, d + 1, ha, hb => by
    have ih := addVec_getD_aux a b d (by simpa using ha) (by simpa using hb)
    simp only [addVec, List.zipWith_cons_cons, List.getD_cons_succ] at ih ⊢
    exact ih
  | [], _, d, ha, _ => absurd ha (by simp)
  | _ :: _, [], d, _, hb => absurd hb (by simp)

theorem addVec_getD {a b : Vec} {D d : ℕ} (ha : a.length = D) (hb : b.length = D)
    (hd : d < D) : (addVec a b).getD d 0 = a.getD d 0 + b.getD d 0 :=
  addVec_getD_aux a b d (by rw [ha]; exact hd) (by rw [hb]; exact hd)

theorem foldl_addVec_getD {D d : ℕ} (hd : d < D) :
    ∀ (t : List Vec) (v : Vec), v.length = D → (∀ w ∈ t, w.length = D) →
      (t.foldl addVec v).getD d 0 = v.getD d 0 + (t.map (fun w => w.getD d 0)).sum
  | [], v, hv, _ => by simp
  | w :: t, v, hv, hw => by
    have ih := foldl_addVec_getD hd t (addVec v w)
      (addVec_length hv (hw w (by simp))) (fun u hu => hw u (by simp [hu]))
    rw [List.foldl_cons, ih, addVec_getD hv (hw w (by simp)) hd]
    simp only [List.map_cons, List.sum_cons]
    ring

theorem meanTok_spec {s : T2} {M D : ℕ} (h : shape2 s M D) (hM : 1 ≤ M) :
    (meanTok s).length = D ∧
    ∀ d, d < D → (meanTok s).getD d 0 =
      (s.map (fun w => w.getD d 0)).sum / (M : ℚ) := by
  rcases s with _ | ⟨v, t⟩
  · exfalso
    have := h.1
    simp at this
    omega
  · have hv : v.length = D := h.2 v (by simp)
    have hw : ∀ w ∈ t, w.length = D := fun w hwm => h.2 w (by simp [hwm])
    have hlen : t.length + 1 = M := by simpa using h.1
    constructor
    · simp [meanTok, foldl_addVec_length t v hv hw]
    · intro d hd
      have hfl : (t.foldl addVec v).length = D := foldl_addVec_length t v hv hw
      have hdl : d < (t.foldl addVec v).length := by rw [hfl]; exact hd
      simp only [meanTok]
      rw [getD_map_of_lt _ _ d hdl 0 0, foldl_addVec_getD hd t v hv hw, ← hlen]
      simp only [List.map_cons, List.sum_cons]
      push_cast
      ring

/-- C4: with the double classification token, forward_features prepends the
head token (position 0) and appends the tail token (final position M+1 of
the M+2 tokens), and returns the elementwise average of the head-position
and tail-position final hidden vectors, of shape (batch, embed_dim). -/
theorem C4_double_cls_token (m : Model) (x : T3) (g : ℕ → ℚ) (i : ℕ)
    (B M D : ℕ)
    (hcls : m.if_cls_token = true) (hdb : m.use_double_cls_token = true)
    (hrope : m.if_rope = false)
    (hms : ModelShapes m B (M + 2) D) (hx : shape3 x B M D) (hB : 1 ≤ B)
    (hch : m.cls_token_head.length = D) (hct : m.cls_token_tail.length = D) :
    (clsInsert m x g i false).1 =
      x.map (fun s => m.cls_token_head :: s ++ [m.cls_token_tail]) ∧
    (clsInsert m x g i false).2.1 = TokenPos.pair 0 (M + 1) ∧
    forward_features m x g i false =
      .ok (.t2 ((finalHiddenOk m x g i false).1.map (fun s =>
          (addVec (s.getD 0 []) (s.getD (M + 1) [])).map (fun z => z / 2))),
        (finalHiddenOk m x g i false).2) ∧
    shape2 ((finalHiddenOk m x g i false).1.map (fun s =>
        (addVec (s.getD 0 []) (s.getD (M + 1) [])).map (fun z => z / 2))) B D := by
  have hM0 : (x.headD []).length = M := headD_length_of_shape3 hx hB
  have hcl := clsInsert_double m x g i false hcls hdb
  rw [hM0] at hcl
  have hH : shape3 (finalHiddenOk m x g i false).1 B (M + 2) D := by
    rw [finalHiddenOk_eq, hcl]
    exact postCls_shape hms g i (clsInsert_double_shape hx hch hct)
  refine ⟨by rw [hcl], by rw [hcl], ?_, ?_⟩
  · rw [forward_features_norope m x g i false hrope, hcl,
      extractOut_double m ((finalHiddenOk m x g i false).1) 0 (M + 1) hcls hdb]
    rfl
  · refine ⟨by simp [hH.1], ?_⟩
    intro v hv
    simp only [List.mem_map] at hv
    obtain ⟨s, hs, rfl⟩ := hv
    have hsS : shape2 s (M + 2) D := hH.2 s hs
    have l0 : (s.getD 0 []).length = D := getD_length_of_shape2 hsS (by omega)
    have l1 : (s.getD (M + 1) []).length = D := getD_length_of_shape2 hsS (by omega)
    rw [List.length_map]
    exact addVec_length l0 l1

/-- C5: with the classification token disabled, pooling "mean" returns the
tokenwise elementwise mean of the final normalized hidden-state sequence
and pooling "none" returns the last token's hidden vector, both of shape
(batch, embed_dim). -/
theorem C5_pooling_policies (m : Model) (x : T3) (g : ℕ → ℚ) (i : ℕ)
    (B M D : ℕ)
    (hcls : m.if_cls_token = false) (hrope : m.if_rope = false)
    (hms : ModelShapes m B M D) (hx : shape3 x B M D) (hM : 1 ≤ M) :
    (m.final_pool_type = "mean" →
      forward_features m x g i false =
        .ok (.t2 ((finalHiddenOk m x g i false).1.map meanTok),
          (finalHiddenOk m x g i false).2) ∧
      shape2 ((finalHiddenOk m x g i false).1.map meanTok) B D ∧
      (∀ b, b < B → ∀ d, d < D →
        (((finalHiddenOk m x g i false).1.map meanTok).getD b []).getD d 0 =
          (((finalHiddenOk m x g i false).1.getD b []).map
            (fun w => w.getD d 0)).sum / (M : ℚ))) ∧
    (m.final_pool_type = "none" →
      forward_features m x g i false =
        .ok (.t2 ((finalHiddenOk m x g i false).1.map (fun s => s.getLastD [])),
          (finalHiddenOk m x g i false).2) ∧
      shape2 ((finalHiddenOk m x g i false).1.map (fun s => s.getLastD [])) B D ∧
      (∀ b, b < B →
        ((finalHiddenOk m x g i false).1.map (fun s => s.getLastD [])).getD b [] =
          ((finalHiddenOk m x g i false).1.getD b []).getD (M - 1) [])) := by
  have hH : shape3 (finalHiddenOk m x g i false).1 B M D := by
    rw [finalHiddenOk_eq, clsInsert_nocls m x g i false hcls]
    exact postCls_shape hms g i hx
  constructor
  · intro hpool
    refine ⟨?_, ⟨by simp [hH.1], ?_⟩, ?_⟩
    · rw [forward_features_norope m x g i false hrope,
        extractOut_nocls_mean m ((finalHiddenOk m x g i false).1)
          (clsInsert m x g i false).2.1 hcls hpool]
      rfl
    · intro v hv
      simp only [List.mem_map] at hv
      obtain ⟨s, hs, rfl⟩ := hv
      exact (meanTok_spec (hH.2 s hs) hM).1
    · intro b hb d hd
      have hbl : b < (finalHiddenOk m x g i false).1.length := by rw [hH.1]; exact hb
      rw [getD_map_of_lt meanTok _ b hbl [] []]
      exact (meanTok_spec (getD_row_shape3 hH hb) hM).2 d hd
  · intro hpool
    refine ⟨?_, ⟨by simp [hH.1], ?_⟩, ?_⟩
    · rw [forward_features_norope m x g i false hrope,
        extractOut_nocls_none m ((finalHiddenOk m x g i false).1)
          (clsInsert m x g i false).2.1 hcls hpool]
      rfl
    · intro v hv
      simp only [List.mem_map] at hv
      obtain ⟨s, hs, rfl⟩ := hv
      have hsS := hH.2 s hs
      rw [getLastD_eq_getD s (by intro he; rw [he] at hsS; simp [shape2] at hsS; omega),
        hsS.1]
      exact getD_length_of_shape2 hsS (by omega)
    · intro b hb
      have hbl : b < (finalHiddenOk m x g i false).1.length := by rw [hH.1]; exact hb
      rw [getD_map_of_lt (fun s => s.getLastD []) _ b hbl [] []]
      have hsS := getD_row_shape3 hH hb
      rw [getLastD_eq_getD _ (by intro he; rw [he] at hsS; simp [shape2] at hsS; omega),
        hsS.1]

def mMean : Model := { mBase with final_pool_type := "mean" }

theorem mDouble_shapes : ModelShapes mDouble 1 3 1 := by
  unfold ModelShapes PS3 BlockShapes
  refine ⟨?_, ?_, ?_, ?_, ?_, ?_⟩
  · intro b hb
    simp [mDouble, mBase] at hb
  · intro y hy
    exact hy
  · intro h r hh _
    exact hh
  · intro habs
    simp [mDouble, mBase] at habs
  · intro p g2 i2 y hy
    exact hy
  · intro g2 i2 y hy
    exact hy

theorem mMean_shapes : ModelShapes mMean 1 1 1 := by
  unfold ModelShapes PS3 BlockShapes
  refine ⟨?_, ?_, ?_, ?_, ?_, ?_⟩
  · intro b hb
    simp [mMean, mBase] at hb
  · intro y hy
    exact hy
  · intro h r hh _
    exact hh
  · intro habs
    simp [mMean, mBase] at habs
  · intro p g2 i2 y hy
    exact hy
  · intro g2 i2 y hy
    exact hy

theorem mBase_shapes : ModelShapes mBase 1 1 1 := by
  unfold ModelShapes PS3 BlockShapes
  refine ⟨?_, ?_, ?_, ?_, ?_, ?_⟩
  · intro b hb
    simp [mBase] at hb
  · intro y hy
    exact hy
  · intro h r hh _
    exact hh
  · intro habs
    simp [mBase] at habs
  · intro p g2 i2 y hy
    exact hy
  · intro g2 i2 y hy
    exact hy

/-- Witness for C4 at a concrete double-token model on a (1,1,1) input. -/
theorem C4_double_cls_token_witness :
    (clsInsert mDouble [[[1]]] gZero 0 false).1 =
      ([[[1]]] : T3).map (fun s => mDouble.cls_token_head :: s ++ [mDouble.cls_token_tail]) ∧
    (clsInsert mDouble [[[1]]] gZero 0 false).2.1 = TokenPos.pair 0 2 ∧
    forward_features mDouble [[[1]]] gZero 0 false =
      .ok (.t2 ((finalHiddenOk mDouble [[[1]]] gZero 0 false).1.map (fun s =>
          (addVec (s.getD 0 []) (s.getD 2 [])).map (fun z => z / 2))),
        (finalHiddenOk mDouble [[[1]]] gZero 0 false).2) ∧
    shape2 ((finalHiddenOk mDouble [[[1]]] gZero 0 false).1.map (fun s =>
        (addVec (s.getD 0 []) (s.getD 2 [])).map (fun z => z / 2))) 1 1 :=
  C4_double_cls_token mDouble [[[1]]] gZero 0 1 1 1 rfl rfl rfl
    mDouble_shapes (by decide) (by decide) rfl rfl

/-- Witness for C5: concrete mean-pooled and last-token-pooled models. -/
theorem C5_pooling_policies_witness :
    forward_features mMean [[[1]]] gZero 0 false =
      .ok (.t2 ((finalHiddenOk mMean [[[1]]] gZero 0 false).1.map meanTok),
        (finalHiddenOk mMean [[[1]]] gZero 0 false).2) ∧
    forward_features mBase [[[1]]] gZero 0 false =
      .ok (.t2 ((finalHiddenOk mBase [[[1]]] gZero 0 false).1.map (fun s => s.getLastD [])),
        (finalHiddenOk mBase [[[1]]] gZero 0 false).2) :=
  ⟨((C5_pooling_policies mMean [[[1]]] gZero 0 1 1 1 rfl rfl
      mMean_shapes (by decide) (by decide)).1 rfl).1,
   ((C5_pooling_policies mBase [[[1]]] gZero 0 1 1 1 rfl rfl
      mBase_shapes (by decide) (by decide)).2 rfl).1⟩

/-! ## Evaluation-mode determinism (C9)

In evaluation mode the dropout operators are the identity and sample
nothing, so the only random draw a forward pass can consume is the
sequence-flip gate\'s single `random.random()` call. -/

theorem blockForward_eval (dpT : DropPathFn) (b : BlockState) (g g2 : ℕ → ℚ)
    (i : ℕ) (h : T3) (r : Option T3) :
    blockForward dpT false b g i h r = blockForward dpT false b g2 i h r := by
  unfold blockForward applyDropPath
  by_cases hf : b.fused_add_norm = false <;> cases r <;> simp [hf]

theorem uniLoop_eval (dpT : DropPathFn) (rope flipQ : Bool) :
    ∀ (L : List BlockState) (g g2 : ℕ → ℚ) (st : (T3 × Option T3) × ℕ),
      uniLoop dpT false rope flipQ L g st = uniLoop dpT false rope flipQ L g2 st := by
  intro L
  induction L with
  | nil => intro g g2 st; rfl
  | cons b t ih =>
    intro g g2 st
    by_cases hr : rope = true
    · unfold uniLoop
      rw [if_pos hr, if_pos hr]
    · simp only [Bool.not_eq_true] at hr
      subst hr
      unfold uniLoop
      simp only [Bool.and_false, Bool.false_eq_true, if_false]
      rw [blockForward_eval dpT b g g2 st.2 st.1.1 st.1.2]
      exact ih g g2 _

theorem biStep_eval (dpT : DropPathFn) (f b : BlockState) (g g2 : ℕ → ℚ)
    (st : (T3 × Option T3) × ℕ) :
    biStep dpT false f b g st = biStep dpT false f b g2 st := by
  have h1 := blockForward_eval dpT f g g2 st.2 st.1.1 st.1.2
  have h2 := blockForward_eval dpT b g g2
    (blockForward dpT false f g2 st.2 st.1.1 st.1.2).2 (flipT st.1.1)
    (st.1.2.map flipT)
  simp only [biStep, h1, h2]

theorem biLoopSrc_eval (dpT : DropPathFn) (rope : Bool) (L : List BlockState)
    (g g2 : ℕ → ℚ) (st : (T3 × Option T3) × ℕ) :
    biLoopSrc dpT false rope L g st = biLoopSrc dpT false rope L g2 st := by
  have hfun : (fun (acc : Except PyErr ((T3 × Option T3) × ℕ)) (i : ℕ) =>
      acc.bind (fun s =>
        if rope then Except.error (PyErr.attributeError "rope")
        else Except.ok (biStep dpT false (L.getD (2 * i) dflBlock)
          (L.getD (2 * i + 1) dflBlock) g s))) =
      (fun acc i => acc.bind (fun s =>
        if rope then Except.error (PyErr.attributeError "rope")
        else Except.ok (biStep dpT false (L.getD (2 * i) dflBlock)
          (L.getD (2 * i + 1) dflBlock) g2 s))) := by
    funext acc i
    rcases acc with e | sacc
    · rfl
    · have hred : ∀ (g0 : ℕ → ℚ),
          Except.bind (Except.ok sacc) (fun s =>
            if rope then Except.error (PyErr.attributeError "rope")
            else Except.ok (biStep dpT false (L.getD (2 * i) dflBlock)
              (L.getD (2 * i + 1) dflBlock) g0 s)) =
          (if rope then Except.error (PyErr.attributeError "rope")
            else Except.ok (biStep dpT false (L.getD (2 * i) dflBlock)
              (L.getD (2 * i + 1) dflBlock) g0 sacc)) := fun g0 => rfl
      rw [hred g, hred g2]
      by_cases hr : rope = true
      · rw [if_pos hr, if_pos hr]
      · rw [if_neg hr, if_neg hr,
          biStep_eval dpT (L.getD (2 * i) dflBlock) (L.getD (2 * i + 1) dflBlock) g g2 sacc]
  unfold biLoopSrc
  rw [hfun]

theorem stackStage_eval (m : Model) (flipQ : Bool) (x : T3) (g g2 : ℕ → ℚ)
    (i : ℕ) (ht : m.training = false) :
    stackStage m flipQ x g i = stackStage m flipQ x g2 i := by
  unfold stackStage
  rw [ht]
  by_cases hb : m.if_bidirectional = false
  · rw [if_pos hb, if_pos hb,
      uniLoop_eval m.dropPathTrain m.if_rope flipQ m.layers g g2 ((x, none), i)]
  · rw [if_neg hb, if_neg hb,
      biLoopSrc_eval m.dropPathTrain m.if_rope m.layers g g2 ((x, none), i)]

theorem clsInsert_noflag (m : Model) (x : T3) (g g2 : ℕ → ℚ) (i : ℕ) :
    clsInsert m x g i false = clsInsert m x g2 i false := by
  unfold clsInsert
  simp only [Bool.false_eq_true, if_false]

theorem clsInsert_noflag_counter (m : Model) (x : T3) (g : ℕ → ℚ) (i : ℕ) :
    (clsInsert m x g i false).2.2 = i := by
  unfold clsInsert
  simp only [Bool.false_eq_true, if_false]
  split_ifs <;> rfl

theorem posStage_eval (m : Model) (x : T3) (g g2 : ℕ → ℚ) (i : ℕ)
    (ht : m.training = false) : posStage m x g i = posStage m x g2 i := by
  unfold posStage
  rw [ht]
  simp only [Bool.false_eq_true, if_false]

theorem posStage_counter (m : Model) (x : T3) (g : ℕ → ℚ) (i : ℕ)
    (ht : m.training = false) : (posStage m x g i).2 = i := by
  unfold posStage
  rw [ht]
  simp only [Bool.false_eq_true, if_false]
  split <;> rfl

theorem flipStage_eval (m : Model) (x : T3) (g g2 : ℕ → ℚ) (i : ℕ)
    (hg : g i = g2 i) : flipStage m x g i = flipStage m x g2 i := by
  unfold flipStage
  rw [hg]

theorem finalStage_eval (m : Model) (g g2 : ℕ → ℚ) (i : ℕ) (h : T3)
    (r : Option T3) (ht : m.training = false) :
    finalStage m g i h r = finalStage m g2 i h r := by
  unfold finalStage selfDropPath
  rw [ht]
  simp only [Bool.false_eq_true, if_false]

/-- C9: evaluation mode with the random-token-position flag disabled makes
`forward` deterministic: the result depends on the random stream only
through the single draw the sequence-flip gate may consume, so two
invocations whose streams agree at the current position — in particular two
runs under the same fixed random seed — return bit-identical outputs. -/
theorem C9_forward_deterministic (m : Model) (x : T3) (g g2 : ℕ → ℚ) (i : ℕ)
    (rf : Bool) (ht : m.training = false) (hg : g i = g2 i) :
    forward m x g i rf false = forward m x g2 i rf false := by
  have hbind : ∀ {α β : Type} (v : α) (f : α → Except PyErr β),
      (Except.ok v >>= f) = f v := fun v f => rfl
  have hff : forward_features m x g i false = forward_features m x g2 i false := by
    rcases hc : clsInsert m x g2 i false with ⟨x1, tp, i1⟩
    have hcg : clsInsert m x g i false = (x1, tp, i1) := by
      rw [clsInsert_noflag m x g g2 i]
      exact hc
    have hi1 : i1 = i := by
      have := clsInsert_noflag_counter m x g2 i
      rw [hc] at this
      exact this
    rcases hp : posStage m x1 g2 i1 with ⟨x2, i2⟩
    have hpg : posStage m x1 g i1 = (x2, i2) := by
      rw [posStage_eval m x1 g g2 i1 ht]
      exact hp
    have hi2 : i2 = i1 := by
      have := posStage_counter m x1 g2 i1 ht
      rw [hp] at this
      exact this
    have hgi2 : g i2 = g2 i2 := by
      rw [hi2, hi1]
      exact hg
    rcases hf2 : flipStage m x2 g2 i2 with ⟨x3, fq, i3⟩
    have hfg : flipStage m x2 g i2 = (x3, fq, i3) := by
      rw [flipStage_eval m x2 g g2 i2 hgi2]
      exact hf2
    have hsg := stackStage_eval m fq x3 g g2 i3 ht
    rcases hs : stackStage m fq x3 g2 i3 with e | ⟨st, i4⟩
    · rw [hs] at hsg
      simp only [forward_features, hcg, hc, hpg, hp, hfg, hf2, hsg, hs]
      rfl
    · rw [hs] at hsg
      simp only [forward_features, hcg, hc, hpg, hp, hfg, hf2, hsg, hs, hbind]
      rw [finalStage_eval m g g2 i4 st.1 st.2 ht]
  unfold forward
  rw [hff]

/-- Witness for C9: an evaluation-mode model gives identical outputs under
two different streams that agree at the consumed position. -/
theorem C9_forward_deterministic_witness :
    forward mBase [[[1]]] gZero 0 false false =
      forward mBase [[[1]]] (fun n => (n : ℚ)) 0 false false :=
  C9_forward_deterministic mBase [[[1]]] gZero (fun n => (n : ℚ)) 0 false rfl
    (by simp [gZero])

end BiMamba
